import Mathlib

/-!
Verification of the Poker-tracker hand-history pipeline (src/main.py).

The Python source is shallowly embedded:
* Python floats carry the IEEE quiet-NaN used by the code (np.nan) as an
  explicit constructor of PFloat; all finite amounts in the program are
  decimal currency values, embedded as exact rationals.
* Python exceptions (IndexError, ValueError from list.index / float(),
  TypeError from None arithmetic, AttributeError from a failed re.search,
  and the explicit "website not supported" ValueError) are embedded as an
  Except over the Err type.
* String scanning (the substring test of the Python "in" operator, str.split,
  str.strip, the concrete regular expressions of main.py) is implemented
  directly on lists of characters, character by character, so that every
  definition evaluates inside the kernel.
* Loops that walk an index are written with an explicit fuel argument that
  is initialised to the length of the traversed list, which makes the
  recursion structural; the fuel never runs out on the reachable indices.
-/

set_option maxRecDepth 100000
set_option maxHeartbeats 1000000

/-- Embedded Python exceptions.  valueError covers ValueError raised by
list.index / str.index / float(); unsupportedWebsite is the explicit
ValueError raised with the "website ... not supported." message;
attrError is the AttributeError from calling .group() on a failed
re.search; typeError is the TypeError from arithmetic on None. -/
inductive Err where
  | indexError
  | valueError
  | typeError
  | attrError
  | unsupportedWebsite
deriving DecidableEq, Repr

instance {ε α : Type} [DecidableEq ε] [DecidableEq α] : DecidableEq (Except ε α)
  | Except.ok a, Except.ok b =>
    if h : a = b then Decidable.isTrue (by rw [h])
    else Decidable.isFalse (fun hh => h (by injection hh))
  | Except.ok _, Except.error _ => Decidable.isFalse (fun hh => Except.noConfusion hh)
  | Except.error _, Except.ok _ => Decidable.isFalse (fun hh => Except.noConfusion hh)
  | Except.error e, Except.error f =>
    if h : e = f then Decidable.isTrue (by rw [h])
    else Decidable.isFalse (fun hh => h (by injection hh))

/-- A Python float as used by main.py: either the quiet NaN (np.nan) or a
finite decimal amount, embedded as an exact rational. -/
inductive PFloat where
  | nan
  | num (q : ℚ)
deriving DecidableEq, Inhabited, Repr

/-- Python float subtraction: NaN propagates, None never reaches here. -/
def psub : PFloat → PFloat → PFloat
  | PFloat.num a, PFloat.num b => PFloat.num (a - b)
  | _, _ => PFloat.nan

/-- Python float addition with NaN propagation (used for the claim-side
running sum of net results). -/
def padd : PFloat → PFloat → PFloat
  | PFloat.num a, PFloat.num b => PFloat.num (a + b)
  | _, _ => PFloat.nan

/-- Python builtin min(a, b): returns a unless b compares strictly below a.
Every comparison against NaN is false, so min(a, nan) = a while
min(nan, b) = nan.  The first argument of the call in main.py line 118 is
the hero investment, the second the (possibly NaN) winner stack. -/
def pyMinQ (a : ℚ) : PFloat → ℚ
  | PFloat.nan => a
  | PFloat.num y => if y < a then y else a

/-- Python round(q, 2) on an exact decimal rational: banker's rounding to
two decimal places. -/
def round2q (q : ℚ) : ℚ :=
  let s : ℚ := q * 100
  let f : ℤ := ⌊s⌋
  let r : ℚ := s - f
  if r < 1 / 2 then (f : ℚ) / 100
  else if 1 / 2 < r then (f + 1 : ℤ) / 100
  else if f % 2 = 0 then (f : ℚ) / 100 else (f + 1 : ℤ) / 100

/-- round(·, 2) lifted to Python floats: round(nan, 2) is nan. -/
def round2P : PFloat → PFloat
  | PFloat.nan => PFloat.nan
  | PFloat.num q => PFloat.num (round2q q)

/-- Python list/str indexing l[i] for a non-negative literal index:
IndexError when out of range. -/
def pyIdx {α : Type} (l : List α) (i : ℕ) : Except Err α :=
  match l.get? i with
  | some a => Except.ok a
  | none => Except.error Err.indexError

/-- Substring test on character lists: the Python "needle in hay" operator. -/
def sublistCheck : List Char → List Char → Bool
  | n, h =>
    if List.isPrefixOf n h then true
    else match h with
      | [] => false
      | _ :: t => sublistCheck n t

/-- Python "needle in hay" on strings. -/
def strContains (needle hay : String) : Bool :=
  sublistCheck needle.toList hay.toList

/-- First position of a substring: Python str.index, None when absent. -/
def substrPos (needle : List Char) : List Char → Option ℕ
  | [] => if List.isPrefixOf needle [] then some 0 else none
  | a :: t =>
    if List.isPrefixOf needle (a :: t) then some 0
    else (substrPos needle t).map (· + 1)

/-- Python str.strip(): drop whitespace from both ends. -/
def trimChars (l : List Char) : List Char :=
  ((l.dropWhile Char.isWhitespace).reverse.dropWhile Char.isWhitespace).reverse

/-- Split a character list at every occurrence of one character, keeping
empty pieces: Python str.split(sep) for a one-character separator. -/
def splitChar (c : Char) : List Char → List (List Char)
  | [] => [[]]
  | a :: t =>
    if a = c then [] :: splitChar c t
    else match splitChar c t with
      | [] => [[a]]
      | h :: r => (a :: h) :: r

/-- Split at every character satisfying p, keeping empty pieces. -/
def splitPred (p : Char → Bool) : List Char → List (List Char)
  | [] => [[]]
  | a :: t =>
    if p a then [] :: splitPred p t
    else match splitPred p t with
      | [] => [[a]]
      | h :: r => (a :: h) :: r

/-- Python str.split() with no argument: split on whitespace and drop the
empty pieces. -/
def pySplitWs (s : String) : List String :=
  ((splitPred Char.isWhitespace s.toList).filter (· ≠ [])).map List.asString

/-- Python list.index(x) as an optional position (ValueError when absent). -/
def pyListIndex : List String → String → Option ℕ
  | [], _ => none
  | a :: t, x => if a = x then some 0 else (pyListIndex t x).map (· + 1)

/-! ## Currency extractor (main.py lines 9-18)

The regular expression of line 15 is (one of the symbols pound, dollar,
euro), then one or more characters in the class [,0-9], then one optional
arbitrary non-newline character (the pattern's dot is unescaped), then any
number of digits.  All pieces after the symbol are greedy and nothing
after a greedy piece can fail, so the leftmost match at a position is
obtained deterministically: maximal run, one more character when present
and not a newline, maximal digit run. -/

/-- The three recognised currency symbols of the regex. -/
def isCurrencySym (c : Char) : Bool := c = '£' || c = '$' || c = '€'

/-- Characters of the class [,0-9]. -/
def isRunChar (c : Char) : Bool := c.isDigit || c = ','

/-- Length of the regex match starting at the head of l, 0 when there is
no match at this position. -/
def matchLen (l : List Char) : ℕ :=
  match l with
  | [] => 0
  | c :: rest =>
    if isCurrencySym c then
      let run := rest.takeWhile isRunChar
      if run.isEmpty then 0
      else
        match rest.dropWhile isRunChar with
        | [] => 1 + run.length
        | d :: r2 =>
          if d = '\n' then 1 + run.length
          else 1 + run.length + 1 + (r2.takeWhile Char.isDigit).length
    else 0

/-- re.findall of the currency pattern: scan left to right, emit each
match and continue right after it.  The fuel is the remaining length. -/
def findallF : ℕ → List Char → List (List Char)
  | 0, _ => []
  | _ + 1, [] => []
  | fuel + 1, c :: t =>
    let n := matchLen (c :: t)
    if n = 0 then findallF fuel t
    else (c :: t).take n :: findallF fuel ((c :: t).drop n)

/-- re.findall(currency_pattern, s). -/
def findallCurrency (s : String) : List (List Char) :=
  findallF s.toList.length s.toList

/-- Numeric value of a digit list read in base 10. -/
def digitsVal (l : List Char) : ℚ :=
  ((l.foldl (fun a c => 10 * a + (c.toNat - 48)) 0 : ℕ) : ℚ)

/-- Python float(str) on the fragment reachable from the regex matches:
an optional integer part, an optional dot, an optional fraction part, at
least one digit in total, and no other characters.  Anything else
(commas, currency symbols, empty string) raises ValueError, i.e. none. -/
def pyFloat (l : List Char) : Option ℚ :=
  match l.dropWhile Char.isDigit with
  | [] =>
    if (l.takeWhile Char.isDigit).isEmpty then none
    else some (digitsVal (l.takeWhile Char.isDigit))
  | c :: fr =>
    if c = '.' then
      if fr.all Char.isDigit && !((l.takeWhile Char.isDigit).isEmpty && fr.isEmpty) then
        some (digitsVal (l.takeWhile Char.isDigit) + digitsVal fr / 10 ^ fr.length)
      else none
    else none

/-- The decimal reading of a numeral written as digits, an optional dot
and more digits: the spec-side value of a currency token's numeral. -/
def decValue (l : List Char) : ℚ :=
  digitsVal (l.takeWhile Char.isDigit) +
    match l.dropWhile Char.isDigit with
    | '.' :: fr => digitsVal fr / 10 ^ fr.length
    | _ => 0

/-- A plain decimal numeral: digits and at most one dot, at least one
digit, nothing else. -/
def DecimalShape (l : List Char) : Prop :=
  (∀ c ∈ l, c.isDigit = true ∨ c = '.') ∧ l.count '.' ≤ 1 ∧ ∃ c ∈ l, c.isDigit = true

instance (l : List Char) : Decidable (DecimalShape l) := by
  unfold DecimalShape; infer_instance

/-- The shape of a well-behaved currency token: the dollar marker, no
further dollar sign, and a numeral that strips to a plain decimal (no
thousands separators, no pound/euro marker). -/
def TokenShape : List Char → Prop
  | [] => False
  | c :: rest =>
    c = '$' ∧ (∀ x ∈ rest, x ≠ '$') ∧ DecimalShape (trimChars rest)

instance : (m : List Char) → Decidable (TokenShape m)
  | [] => Decidable.isFalse (fun h => h)
  | c :: rest => by unfold TokenShape; infer_instance

/-- The spec-side numeric value of a currency-marked token: drop the
marker, strip whitespace, read the decimal numeral. -/
def tokenValue (m : List Char) : ℚ := decValue (trimChars (m.drop 1))

/-- main.py lines 9-18: take the last regex match (IndexError when there is
none), delete every dollar sign, strip whitespace, call float()
(ValueError on failure). -/
def extract_currency_amount (s : String) : Except Err ℚ :=
  match (findallCurrency s).getLast? with
  | none => Except.error Err.indexError
  | some m =>
    match pyFloat (trimChars (m.filter (fun c => c ≠ '$'))) with
    | some q => Except.ok q
    | none => Except.error Err.valueError

/-! ## Field extractors (main.py lines 21-94) -/

/-- main.py lines 21-30: scan the hand for the first line that contains
both the hero name and "Seat" and extract its currency amount; Python
falls off the loop and returns None (here: ok none) when no line matches. -/
def extract_start_stack : List String → String → Except Err (Option ℚ)
  | [], _ => Except.ok none
  | e :: t, hero =>
    if strContains hero e && strContains "Seat" e then
      (extract_currency_amount e).map some
    else extract_start_stack t hero

/-- main.py lines 49-58: split the line on single spaces, find the word
"Table" (ValueError when absent), take the following word (IndexError when
there is none) and delete any apostrophe characters. -/
def extract_table_name (s : String) : Except Err String :=
  let parts := (splitChar ' ' s.toList).map List.asString
  match pyListIndex parts "Table" with
  | none => Except.error Err.valueError
  | some idx =>
    match parts.get? (idx + 1) with
    | none => Except.error Err.indexError
    | some t => Except.ok ((t.toList.filter (fun c => c ≠ Char.ofNat 39)).asString)

/-- One position of the date pattern of main.py line 40 or 42, as a
character predicate. -/
def shapeOf : Char → Char → Bool
  | 'd', c => c.isDigit
  | m, c => c = m

/-- The 888 pattern of line 40: two digits, space, two digits, space, four
digits, space, two digits, colon, two digits, colon, two digits. -/
def shape888 : List Char := "dd dd dddd dd:dd:dd".toList

/-- The pokerstars pattern of line 42: four digits, slash, two digits,
slash, two digits, space, two digits, colon, two digits, colon, two
digits. -/
def shapePS : List Char := "dddd/dd/dd dd:dd:dd".toList

/-- Does the pattern match at the head of l? -/
def matchesShapeAt : List Char → List Char → Bool
  | [], _ => true
  | _ :: _, [] => false
  | p :: ps, c :: cs => shapeOf p c && matchesShapeAt ps cs

/-- re.search for a fixed-width pattern: first (leftmost) window that
matches, as the matched text. -/
def searchShape (pat : List Char) : List Char → Option (List Char)
  | [] => if matchesShapeAt pat [] then some [] else none
  | c :: t =>
    if matchesShapeAt pat (c :: t) then some ((c :: t).take pat.length)
    else searchShape pat t

/-- main.py lines 33-46: the timestamp field.  The pd.Timestamp value is
represented by the exact text matched by the dialect's pattern; a failed
search raises AttributeError on .group(); an unknown website raises the
"website not supported" ValueError before any search happens. -/
def extract_date (s : String) (website : String) : Except Err String :=
  if website = "888" then
    match searchShape shape888 s.toList with
    | some m => Except.ok m.asString
    | none => Except.error Err.attrError
  else if website = "pokerstars" then
    match searchShape shapePS s.toList with
    | some m => Except.ok m.asString
    | none => Except.error Err.attrError
  else Except.error Err.unsupportedWebsite

/-- main.py lines 61-73: the game identifier.  888: second piece of the
colon-split, stripped (IndexError when there is no colon).  pokerstars:
the part of the first colon-piece after a hash (IndexError when there is
no hash).  Unknown website: the "website not supported" ValueError. -/
def extract_game_id (s : String) (website : String) : Except Err String :=
  if website = "888" then
    match (splitChar ':' s.toList).get? 1 with
    | some p => Except.ok (trimChars p).asString
    | none => Except.error Err.indexError
  else if website = "pokerstars" then
    match (splitChar ':' s.toList).get? 0 with
    | none => Except.error Err.indexError
    | some p0 =>
      match (splitChar '#' p0).get? 1 with
      | some p => Except.ok p.asString
      | none => Except.error Err.indexError
  else Except.error Err.unsupportedWebsite

/-- main.py lines 82-94: every line whose tail (the line minus its first
character) contains "collected" contributes its first whitespace-separated
word; the words are deduplicated (Python set) and returned sorted by name
(Python sorted). -/
def extract_winners (hand : List String) : List String :=
  let raw := hand.filterMap fun e =>
    if sublistCheck "collected".toList (e.toList.drop 1) then
      some (((splitPred Char.isWhitespace e.toList).filter (· ≠ [])).headI.asString)
    else none
  List.insertionSort (· ≤ ·) raw.dedup

/-- main.py lines 109-111: the winner name is the stripped prefix before
the first "collected" of the last line containing "collected";
it stays "NA" when no line contains "collected". -/
def winnerName (hand : List String) : String :=
  hand.foldl
    (fun acc e =>
      match substrPos "collected".toList e.toList with
      | some k => (trimChars (e.toList.take k)).asString
      | none => acc)
    "NA"

/-- main.py lines 112-114: scan for lines containing the winner name and
"Seat"; each match overwrites the stack with the line's currency amount;
the initial value is np.nan. -/
def winnerStartStack (hand : List String) : Except Err PFloat :=
  let w := winnerName hand
  hand.foldlM
    (fun acc e =>
      if strContains w e && strContains "Seat" e then
        (extract_currency_amount e).map PFloat.num
      else pure acc)
    PFloat.nan

/-- main.py lines 115-117 (and 100-101): sum of the currency amounts of
every line containing the hero name together with one of "posts", "bets",
"calls", "raises". -/
def heroInvestment (hand : List String) (hero : String) : Except Err ℚ :=
  hand.foldlM
    (fun acc e =>
      if strContains hero e &&
          (strContains "posts" e || strContains "bets" e ||
           strContains "calls" e || strContains "raises" e) then
        (extract_currency_amount e).map (acc + ·)
      else pure acc)
    (0 : ℚ)

/-- main.py lines 107-119: loss of a lost hand.  The winner stack loop runs
before the investment loop; the loss is min(invest, winner stack) under
Python min semantics (a NaN second argument leaves the investment), and
the negated loss is rounded to cents. -/
def extract_return_from_losing_hand (hand : List String) (hero : String) : Except Err ℚ := do
  let w ← winnerStartStack hand
  let v ← heroInvestment hand hero
  pure (round2q (-(pyMinQ v w)))

/-- main.py lines 97-104: split-pot return.  One pass over the lines, in
order: an investment line adds its amount, a hero "collected" line
overwrites the win amount; the result is win minus investment rounded to
cents. -/
def extract_return_from_split_pot (hand : List String) (hero : String) : Except Err ℚ := do
  let p ← hand.foldlM
    (fun (p : ℚ × ℚ) e => do
      let inv ←
        if strContains hero e &&
            (strContains "posts" e || strContains "bets" e ||
             strContains "calls" e || strContains "raises" e) then
          (extract_currency_amount e).map (p.2 + ·)
        else pure p.2
      let w ←
        if strContains hero e && strContains "collected" e then
          extract_currency_amount e
        else pure p.1
      pure (w, inv))
    ((0 : ℚ), (0 : ℚ))
  pure (round2q (p.1 - p.2))

/-! ## Hand segmenter (main.py lines 122-137)

The loop index i walks the raw lines.  Indices with i >= len-2 are skipped
entirely (both for marker detection and for end detection).  A line
containing "#Game No" or "Hand #" updates the candidate start; a position
whose line and next two lines each equal "\n" closes a hand, appending
lines[start:end].  The candidate start is initialised to np.nan: an end
marker seen before any start marker slices with a non-integer and raises
a TypeError, embedded as the none result.  The fuel argument makes the
recursion structural; it is initialised to the number of lines. -/

/-- A hand-start marker line: contains "#Game No" or "Hand #". -/
def isMarkerLine (v : String) : Bool :=
  sublistCheck "#Game No".toList v.toList || sublistCheck "Hand #".toList v.toList

/-- The exact end-marker line. -/
def blankLine : String := "\n"

/-- Position e opens a run of three blank lines and is inspected by the
loop (e < len - 2). -/
def EndPos (ls : List String) (e : ℕ) : Prop :=
  e + 2 < ls.length ∧ ls.getD e "" = blankLine ∧
    ls.getD (e + 1) "" = blankLine ∧ ls.getD (e + 2) "" = blankLine

instance (ls : List String) (e : ℕ) : Decidable (EndPos ls e) := by
  unfold EndPos; infer_instance

/-- The scan loop of convert_raw_hand_history, producing the emitted
(start, end) ranges; none embeds the TypeError of slicing with the
np.nan start. -/
def segLoop (ls : List String) : ℕ → ℕ → Option ℕ → List (ℕ × ℕ) → Option (List (ℕ × ℕ))
  | 0, _, _, acc => some acc
  | fuel + 1, i, start, acc =>
    if i < ls.length then
      if ls.length - 2 ≤ i then segLoop ls fuel (i + 1) start acc
      else
        if EndPos ls i then
          match (if isMarkerLine (ls.getD i "") then some i else start) with
          | none => none
          | some s =>
            segLoop ls fuel (i + 1)
              (if isMarkerLine (ls.getD i "") then some i else start) (acc ++ [(s, i)])
        else segLoop ls fuel (i + 1) (if isMarkerLine (ls.getD i "") then some i else start) acc
    else some acc

/-- The (start, end) ranges of the HandBlocks of one raw log. -/
def segRanges (ls : List String) : Option (List (ℕ × ℕ)) :=
  segLoop ls ls.length 0 none []

/-- Python lines[s:e]. -/
def pySlice {α : Type} (l : List α) (s e : ℕ) : List α := (l.take e).drop s

/-- main.py lines 122-137: the list of HandBlocks (each the slice
lines[start:end]), or none when the scan raises. -/
def convert_raw_hand_history (ls : List String) : Option (List (List String)) :=
  (segRanges ls).map (fun rs => rs.map fun p => pySlice ls p.1 p.2)

/-- Well-formed raw log: between any two distinct triple-blank positions
there is a start-marker line.  This rules out runs of four or more blank
lines and repeated blank runs with no new hand in between. -/
def WF (ls : List String) : Prop :=
  ∀ e1 ∈ List.range ls.length, ∀ e2 ∈ List.range ls.length,
    EndPos ls e1 → EndPos ls e2 → e1 < e2 →
      ∃ m ∈ List.range ls.length, e1 < m ∧ m < e2 ∧ isMarkerLine (ls.getD m "") = true

instance (ls : List String) : Decidable (WF ls) := by
  unfold WF; infer_instance

/-! ## Session builder (main.py lines 140-181) -/

/-- One row of the per-hand table built by extract_game_results.  The date
field holds the text matched by the dialect's timestamp pattern. -/
structure HandRecord where
  website : String
  date : String
  table : String
  game_id : String
  hand_number_table : ℕ
  start_stack : Option ℚ
  result : String
  win : PFloat
deriving DecidableEq, Inhabited, Repr

/-- The exact summary separator line of main.py line 146. -/
def summaryLine : String := "*** SUMMARY ***\n"

/-- main.py lines 145-147: under the pokerstars dialect the hand is cut at
the first occurrence of the summary line (ValueError when absent); other
dialects leave the hand unchanged. -/
def pyTrimSummary (website : String) (hand : List String) : Except Err (List String) :=
  if website = "pokerstars" then
    match pyListIndex hand summaryLine with
    | some idx => Except.ok (hand.take idx)
    | none => Except.error Err.valueError
  else Except.ok hand

/-- main.py lines 160-163: the lookahead stack for a sole-winner hand.
With the 1-based loop index i, the code reads hand_history[i + 1] when
i < len - 1 (which, because the current hand is hand_history[i - 1], is
the hand after the next one) and takes np.nan otherwise. -/
def nextStack (full : List (List String)) (hero : String) (i : ℕ) :
    Except Err (Option PFloat) :=
  if i < full.length - 1 then
    match pyIdx full (i + 1) with
    | Except.error e => Except.error e
    | Except.ok nh => (extract_start_stack nh hero).map (fun o => o.map PFloat.num)
  else Except.ok (some PFloat.nan)

/-- main.py lines 155-167: the outcome branch.  Order as in the source:
hero not a winner first, then sole winner, then split. -/
def outcome (full : List (List String)) (hero : String) (i : ℕ) (hand : List String)
    (winners : List String) (ss : Option ℚ) : Except Err (String × PFloat) :=
  if hero ∈ winners then
    if winners.length = 1 then
      match nextStack full hero i with
      | Except.error e => Except.error e
      | Except.ok ssn =>
        match ssn, ss with
        | some a, some b => Except.ok ("win", psub a (PFloat.num b))
        | _, _ => Except.error Err.typeError
    else (extract_return_from_split_pot hand hero).map (fun q => ("split", PFloat.num q))
  else (extract_return_from_losing_hand hand hero).map (fun q => ("no win", PFloat.num q))

/-- The body of the loop of main.py lines 144-180 for the 1-based index i,
after the summary trim. -/
def processCore (full : List (List String)) (hero website table : String) (i : ℕ)
    (hand : List String) : Except Err HandRecord :=
  match pyIdx hand (if website = "888" then 2 else 0) with
  | Except.error e => Except.error e
  | Except.ok ds =>
    match extract_date ds website with
    | Except.error e => Except.error e
    | Except.ok date =>
      match pyIdx hand 0 with
      | Except.error e => Except.error e
      | Except.ok g0 =>
        match extract_game_id g0 website with
        | Except.error e => Except.error e
        | Except.ok gid =>
          match extract_start_stack hand hero with
          | Except.error e => Except.error e
          | Except.ok ss =>
            match outcome full hero i hand (extract_winners hand) ss with
            | Except.error e => Except.error e
            | Except.ok rw => Except.ok ⟨website, date, table, gid, i, ss, rw.1, round2P rw.2⟩

/-- The loop body of main.py lines 144-180 including the summary trim. -/
def processHand (full : List (List String)) (hero website table : String) (i : ℕ)
    (hand0 : List String) : Except Err HandRecord :=
  match pyTrimSummary website hand0 with
  | Except.error e => Except.error e
  | Except.ok hand => processCore full hero website table i hand

/-- The enumerate(hand_history, start=1) loop. -/
def processAll (full : List (List String)) (hero website table : String) :
    ℕ → List (List String) → Except Err (List HandRecord)
  | _, [] => Except.ok []
  | i, h :: t =>
    match processHand full hero website table i h with
    | Except.error e => Except.error e
    | Except.ok r =>
      match processAll full hero website table (i + 1) t with
      | Except.error e => Except.error e
      | Except.ok rs => Except.ok (r :: rs)

/-- main.py lines 140-181: read the table-name line of the first hand
(index 3 under 888, index 1 otherwise), parse the table name, then
classify every hand with its 1-based index. -/
def extract_game_results (hand_history : List (List String)) (hero website : String) :
    Except Err (List HandRecord) :=
  match pyIdx hand_history 0 with
  | Except.error e => Except.error e
  | Except.ok h0 =>
    match pyIdx h0 (if website = "888" then 3 else 1) with
    | Except.error e => Except.error e
    | Except.ok tl =>
      match extract_table_name tl with
      | Except.error e => Except.error e
      | Except.ok table => processAll hand_history hero website table 1 hand_history

/-! ## Ledger aggregator (main.py lines 184-189)

final_data_preprocessing sorts the merged table by date, re-indexes it,
assigns hand_number_total = index + 1 and win_cumulative = cumsum of the
win column.  The pandas cumulative sum leaves a NaN entry NaN and keeps
accumulating past it (skipna semantics).  For the claims about this
function the rows are reduced to their sort key (an abstract numeric
date) and their win value. -/

/-- A merged-table row as far as final_data_preprocessing inspects it. -/
structure LRow where
  date : ℕ
  win : PFloat
deriving DecidableEq, Inhabited, Repr

/-- An output row of final_data_preprocessing. -/
structure ORow where
  date : ℕ
  win : PFloat
  hand_number_total : ℕ
  win_cumulative : PFloat
deriving DecidableEq, Inhabited, Repr

/-- df.sort_values(by="date"): sort rows by date. -/
def sortRows (l : List LRow) : List LRow :=
  List.insertionSort (fun a b => a.date ≤ b.date) l

/-- The column assignments of main.py lines 187-188 on the sorted rows:
k is the next 1-based index, s the running sum of the non-NaN win values
seen so far (pandas cumsum skips NaN entries and leaves them NaN). -/
def addDerived : ℕ → ℚ → List LRow → List ORow
  | _, _, [] => []
  | k, s, r :: t =>
    match r.win with
    | PFloat.nan => ⟨r.date, r.win, k, PFloat.nan⟩ :: addDerived (k + 1) s t
    | PFloat.num q => ⟨r.date, r.win, k, PFloat.num (s + q)⟩ :: addDerived (k + 1) (s + q) t

/-- main.py lines 184-189. -/
def final_data_preprocessing (l : List LRow) : List ORow :=
  addDerived 1 0 (sortRows l)

/-- The claim-side sum of a list of Python floats: NaN propagates, unlike
the pandas cumulative sum. -/
def sumP : List PFloat → PFloat
  | [] => PFloat.num 0
  | p :: t => padd p (sumP t)

/-- Sum of the non-NaN entries (the quantity the pandas cumulative sum
actually accumulates). -/
def qsum : List PFloat → ℚ
  | [] => 0
  | PFloat.nan :: t => qsum t
  | PFloat.num q :: t => q + qsum t

/-! ## Concrete inputs used by the claim theorems -/

/-- An 888 log of three fully parsed hands: the hero is the sole winner of
hand 1 with starting stacks 2.00 (hand 1), 2.50 (hand 2), 3.00 (hand 3). -/
def exC1 : List (List String) :=
  [["#Game No : 1", "x", "01 01 2020 00:00:01", "Table T (x)",
    "Seat 1: hero ( $2 )", "Seat 2: vz ( $5 )", "hero collected [ $1 ]"],
   ["#Game No : 2", "x", "01 01 2020 00:00:02", "Table T (x)",
    "Seat 1: hero ( $2.50 )", "Seat 2: vz ( $5 )", "vz collected [ $1 ]"],
   ["#Game No : 3", "x", "01 01 2020 00:00:03", "Table T (x)",
    "Seat 1: hero ( $3 )", "Seat 2: vz ( $5 )", "vz collected [ $1 ]"]]

/-- An 888 log of three fully parsed hands where the hero is the sole
winner of hand 2 (the second-to-last hand of the log). -/
def exC4 : List (List String) :=
  [["#Game No : 1", "x", "01 01 2020 00:00:01", "Table T (x)",
    "Seat 1: hero ( $2 )", "Seat 2: vz ( $5 )", "vz collected [ $1 ]"],
   ["#Game No : 2", "x", "01 01 2020 00:00:02", "Table T (x)",
    "Seat 1: hero ( $2.50 )", "Seat 2: vz ( $5 )", "hero collected [ $1 ]"],
   ["#Game No : 3", "x", "01 01 2020 00:00:03", "Table T (x)",
    "Seat 1: hero ( $3 )", "Seat 2: vz ( $5 )", "vz collected [ $1 ]"]]

/-- A lost hand (the hero invested 0.50) whose winner "vz" has no seat
line, so the winner's starting stack is not determinable. -/
def exC3 : List String :=
  ["Seat 1: hero ( $2 )", "hero posts [$0.50]", "vz collected [ $1 ]"]

/-- A lost hand with investment 0.50 against a winner whose declared
starting stack is 0.30. -/
def exC3w : List String :=
  ["Seat 2: vz ( $0.30 )", "hero posts [$0.50]", "vz collected [ $1 ]"]

/-- Merged rows whose middle win value is NaN. -/
def exC5 : List LRow := [⟨1, PFloat.num 1⟩, ⟨2, PFloat.nan⟩, ⟨3, PFloat.num 2⟩]

/-- Merged rows with no NaN win value. -/
def exC5w : List LRow := [⟨2, PFloat.num 2⟩, ⟨1, PFloat.num 1⟩]

/-- A raw log whose single start marker is followed by a run of four blank
lines: positions 2 and 3 both open a triple-blank run. -/
def exC6 : List String :=
  ["#Game No : 1", "a", "\n", "\n", "\n", "\n", "x", "y"]

/-- A well-formed raw log of two hands separated by exactly three blank
lines. -/
def exC6w : List String :=
  ["#Game No : 1", "a", "\n", "\n", "\n", "Hand #2", "b", "\n", "\n", "\n", "x", "y", "z"]

/-- A raw log whose triple-blank run precedes every start marker. -/
def exC9 : List String := ["\n", "\n", "\n", "#Game No : 1", "x", "y"]

/-- A one-hand log whose second line is a table line (the position the
entry code reads under every non-888 tag). -/
def exC7w : List (List String) :=
  [["#Game No : 1", "Table T (x)", "01 01 2020 00:00:01", "x",
    "Seat 1: hero ( $2 )", "hero collected [ $1 ]"]]

/-! ## Helper lemmas -/

/-- Python min with a finite second argument is the mathematical minimum. -/
theorem pyMinQ_num (v w : ℚ) : pyMinQ v (PFloat.num w) = min v w := by
  show (if w < v then w else v) = min v w
  rcases lt_or_le w v with h | h
  · rw [if_pos h, min_eq_right h.le]
  · rw [if_neg (not_lt.mpr h), min_eq_left h]

/-- list.index of an element that sits right behind a prefix not
containing it. -/
theorem pyListIndex_append (hand tail : List String) (x : String) (h : x ∉ hand) :
    pyListIndex (hand ++ x :: tail) x = some hand.length := by
  induction hand with
  | nil => simp [pyListIndex]
  | cons a t ih =>
    have ha : a ≠ x := fun he => h (he ▸ List.mem_cons_self a t)
    have ht : x ∉ t := fun hm => h (List.mem_cons_of_mem a hm)
    simp [pyListIndex, ha, ih ht]

/-- list.index fails on a list not containing the element. -/
theorem pyListIndex_not_mem (hand : List String) (x : String) (h : x ∉ hand) :
    pyListIndex hand x = none := by
  induction hand with
  | nil => rfl
  | cons a t ih =>
    have ha : a ≠ x := fun he => h (he ▸ List.mem_cons_self a t)
    have ht : x ∉ t := fun hm => h (List.mem_cons_of_mem a hm)
    simp [pyListIndex, ha, ih ht]

/-! ## Claims -/

/-- C1: the claim states that a sole-winner hand that is not last gets net
result (next hand's hero starting stack) − (this hand's hero starting
stack), e.g. stacks 2.00 then 2.50 give +0.50.  The code disagrees: with
the 1-based enumerate index i it reads hand_history[i + 1], the hand
*after* the next one.  On exC1 (stacks 2.00, 2.50, 3.00, hero sole winner
of hand 1) the recorded net result is 1.00 = 3.00 − 2.00, not the claimed
0.50 = 2.50 − 2.00. -/
theorem claim_C1_win_lookahead_off_by_one :
    (extract_game_results exC1 "hero" "888").map
        (fun rs => ((rs.getD 0 default).result, (rs.getD 0 default).win, rs.length))
      = Except.ok ("win", PFloat.num 1, 3)
    ∧ extract_start_stack (exC1.getD 1 []) "hero" = Except.ok (some (5/2))
    ∧ extract_start_stack (exC1.getD 0 []) "hero" = Except.ok (some 2)
    ∧ PFloat.num 1 ≠ PFloat.num (5/2 - 2) := by
  with_unfolding_all decide

/-- C4: the claim states that exactly the last HandBlock of a log can get
the missing win-category net result.  On exC4 the hero is the sole winner
of hand 2 of 3 — not the last hand — and because the guard i < len − 1 is
tested against the 1-based index i = 2, the record already gets NaN. -/
theorem claim_C4_missing_lookahead_not_only_last :
    (extract_game_results exC4 "hero" "888").map
        (fun rs => ((rs.getD 1 default).result, (rs.getD 1 default).win, rs.length))
      = Except.ok ("win", PFloat.nan, 3) := by
  with_unfolding_all decide

/-- C9: a run of three blank lines before any start-marker line makes
convert_raw_hand_history slice with the np.nan start and raise (none). -/
theorem claim_C9_segmenter_raises_without_marker :
    convert_raw_hand_history exC9 = none ∧ segRanges exC9 = none := by
  constructor <;> decide

/-- C8: extract_winners always returns a strictly sorted (hence
duplicate-free) list of names, and the embedded pipeline is a pure
function, so re-running it on identical input yields an identical
result. -/
theorem claim_C8_winners_sorted_deterministic :
    ∀ hand : List String,
      (extract_winners hand).Pairwise (· < ·) ∧
      ∀ (hh : List (List String)) (hero website : String),
        extract_game_results hh hero website = extract_game_results hh hero website := by
  intro hand
  constructor
  · unfold extract_winners
    apply List.Sorted.lt_of_le
    · exact List.sorted_insertionSort _ _
    · exact ((List.perm_insertionSort _ _).nodup_iff).mpr (List.nodup_dedup _)
  · intro hh hero website; rfl

/-- C3 counterexample: the claim demands a missing/NaN net result whenever
the winner's starting stack is not determinable, and never the uncapped
investment.  On exC3 the winner "vz" has no seat line (stack NaN), the
hero invested 0.50, and the code returns the definite value −0.50, i.e.
exactly the negated uncapped investment. -/
theorem claim_C3_counterexample :
    winnerStartStack exC3 = Except.ok PFloat.nan ∧
    heroInvestment exC3 "hero" = Except.ok (1/2) ∧
    extract_return_from_losing_hand exC3 "hero" = Except.ok (-(1/2)) := by
  refine ⟨by with_unfolding_all decide, by with_unfolding_all decide, ?_⟩
  with_unfolding_all decide

/-- C3 amended: for a lost hand the net result is −min(investment, winner
starting stack) rounded to cents when the winner's stack is determinable;
when it is not (NaN), Python's min returns its first argument and the code
yields the negated uncapped investment — a definite number, not NaN. -/
theorem claim_C3_amended (hand : List String) (hero : String) (v : ℚ)
    (hv : heroInvestment hand hero = Except.ok v) :
    (∀ w : ℚ, winnerStartStack hand = Except.ok (PFloat.num w) →
      extract_return_from_losing_hand hand hero = Except.ok (round2q (-(min v w)))) ∧
    (winnerStartStack hand = Except.ok PFloat.nan →
      extract_return_from_losing_hand hand hero = Except.ok (round2q (-v))) := by
  constructor
  · intro w hw
    simp only [extract_return_from_losing_hand, hw, hv]
    show Except.ok (round2q (-(pyMinQ v (PFloat.num w)))) = _
    rw [pyMinQ_num]
  · intro hw
    simp only [extract_return_from_losing_hand, hw, hv]
    rfl

/-- C3 witness: the spec's own example — investment 0.50 against a winner
stack of 0.30 gives −0.30. -/
theorem claim_C3_amended_witness :
    heroInvestment exC3w "hero" = Except.ok (1/2) ∧
    winnerStartStack exC3w = Except.ok (PFloat.num (3/10)) ∧
    extract_return_from_losing_hand exC3w "hero" = Except.ok (-(3/10)) := by
  have h := (claim_C3_amended exC3w "hero" (1/2) (by with_unfolding_all decide)).1 (3/10)
    (by with_unfolding_all decide)
  refine ⟨by with_unfolding_all decide, by with_unfolding_all decide, ?_⟩
  rw [h]
  with_unfolding_all decide

/-- Summary trim on a hand whose first summary line sits right after a
prefix not containing it: the hand is cut exactly there. -/
theorem pyTrimSummary_append (hand tl : List String) (hnot : summaryLine ∉ hand) :
    pyTrimSummary "pokerstars" (hand ++ summaryLine :: tl) = Except.ok hand := by
  unfold pyTrimSummary
  rw [if_pos rfl, pyListIndex_append hand tl _ hnot]
  show Except.ok (List.take hand.length (hand ++ summaryLine :: tl)) = Except.ok hand
  rw [List.take_left]

/-- Summary trim raises on a hand without the summary line. -/
theorem pyTrimSummary_absent (hand : List String) (hnot : summaryLine ∉ hand) :
    pyTrimSummary "pokerstars" hand = Except.error Err.valueError := by
  unfold pyTrimSummary
  rw [if_pos rfl, pyListIndex_not_mem hand _ hnot]

/-- C10: under the pokerstars dialect the loop body cuts the hand at the
first occurrence of the exact summary line before any classification, so
everything from that line on is ignored (appending any tail after the
summary line changes nothing), and a hand without the summary line makes
the loop body raise the ValueError that aborts the whole log. -/
theorem claim_C10_pokerstars_summary (full : List (List String)) (hero table : String)
    (i : ℕ) (hand tl : List String) (hnot : summaryLine ∉ hand) :
    processHand full hero "pokerstars" table i (hand ++ summaryLine :: tl)
      = processHand full hero "pokerstars" table i (hand ++ [summaryLine])
    ∧ processHand full hero "pokerstars" table i hand = Except.error Err.valueError := by
  constructor
  · unfold processHand
    rw [pyTrimSummary_append hand tl hnot, pyTrimSummary_append hand [] hnot]
  · unfold processHand
    rw [pyTrimSummary_absent hand hnot]

/-- C10 witness. -/
theorem claim_C10_pokerstars_summary_witness :
    (processHand [] "h" "pokerstars" "T" 1 (["a"] ++ summaryLine :: ["b"])
      = processHand [] "h" "pokerstars" "T" 1 (["a"] ++ [summaryLine]))
    ∧ processHand [] "h" "pokerstars" "T" 1 ["a"] = Except.error Err.valueError :=
  claim_C10_pokerstars_summary [] "h" "T" 1 ["a"] ["b"] (by decide)

/-- C7 counterexample: the claim says the unknown-dialect failure is
raised at entry for every unsupported tag, before any line of the log is
read.  With the "bovada" tag and a first hand of a single line the entry
code has already tried to read the table-name line hand_history[0][1] and
fails with IndexError instead. -/
theorem claim_C7_counterexample :
    extract_game_results [["a"]] "h" "bovada" = Except.error Err.indexError
    ∧ Err.indexError ≠ Err.unsupportedWebsite :=
  ⟨by with_unfolding_all decide, by decide⟩

/-- C7 amended: for an unsupported dialect tag the "website not supported"
ValueError is raised from the timestamp extractor while the first hand is
being processed — after the entry code has read and parsed the table-name
line of the first hand — not at entry before any line is read. -/
theorem claim_C7_amended (hh : List (List String)) (hero w : String)
    (h0 : List String) (tl t d : String)
    (hw1 : w ≠ "888") (hw2 : w ≠ "pokerstars")
    (hh0 : hh.get? 0 = some h0) (htl : h0.get? 1 = some tl)
    (htable : extract_table_name tl = Except.ok t) (hds : h0.get? 0 = some d) :
    extract_game_results hh hero w = Except.error Err.unsupportedWebsite := by
  obtain ⟨rest, rfl⟩ : ∃ rest, hh = h0 :: rest := by
    cases hh with
    | nil => simp at hh0
    | cons a r =>
      have ha : a = h0 := by simpa using hh0
      exact ⟨r, by rw [ha]⟩
  have hds2 : h0[0]? = some d := by simpa [← List.get?_eq_getElem?] using hds
  have htl2 : h0[1]? = some tl := by simpa [← List.get?_eq_getElem?] using htl
  have hph : processHand (h0 :: rest) hero w t 1 h0 = Except.error Err.unsupportedWebsite := by
    simp [processHand, pyTrimSummary, processCore, pyIdx, extract_date, hw1, hw2, hds2]
  simp [extract_game_results, pyIdx, htl2, htable, hw1, processAll, hph]

/-- C7 witness: a well-formed 888-layout log processed with an unknown
tag reaches the timestamp extractor and raises there. -/
theorem claim_C7_amended_witness :
    extract_game_results exC7w "hero" "bovada" = Except.error Err.unsupportedWebsite :=
  claim_C7_amended exC7w "hero" "bovada" (exC7w.getD 0 []) "Table T (x)" "T" "#Game No : 1"
    (by decide) (by decide) (by decide) (by decide) (by with_unfolding_all decide) (by decide)

/-- addDerived keeps the number of rows. -/
theorem addDerived_length (l : List LRow) : ∀ (k : ℕ) (s : ℚ),
    (addDerived k s l).length = l.length := by
  induction l with
  | nil => intro k s; rfl
  | cons r t ih =>
    intro k s
    cases hr : r.win <;> simp [addDerived, hr, ih]

/-- A NaN-free list sums to the finite sum of its entries. -/
theorem sumP_eq_qsum (l : List PFloat) (h : ∀ p ∈ l, p ≠ PFloat.nan) :
    sumP l = PFloat.num (qsum l) := by
  induction l with
  | nil => rfl
  | cons p t ih =>
    cases p with
    | nan => exact absurd rfl (h _ (List.mem_cons_self _ _))
    | num q =>
      have ht := ih (fun p hp => h p (List.mem_cons_of_mem _ hp))
      simp [sumP, qsum, padd, ht]

/-- Every element of a take-prefix sits at a position below the cut. -/
theorem mem_take_getD {α : Type} [Inhabited α] (l : List α) (n : ℕ) (p : α)
    (hp : p ∈ l.take n) : ∃ j, j < n ∧ j < l.length ∧ l.getD j default = p := by
  obtain ⟨j, hj, he⟩ := List.getElem_of_mem hp
  have hjl : j < l.length := lt_of_lt_of_le hj (by simpa using List.length_take_le n l)
  have hjn : j < n := lt_of_lt_of_le hj (by simpa using List.length_take_le' n l)
  refine ⟨j, hjn, hjl, ?_⟩
  rw [List.getD_eq_getElem l default hjl, ← he, List.getElem_take]

/-- Positional description of addDerived: the 1-based index column counts
up from k, and as long as no NaN occurred up to position i the cumulative
column carries s plus the finite sum of the first i+1 win values. -/
theorem addDerived_spec (l : List LRow) : ∀ (k : ℕ) (s : ℚ) (i : ℕ), i < l.length →
    ((addDerived k s l).getD i default).hand_number_total = k + i ∧
    ((∀ j, j ≤ i → (l.getD j default).win ≠ PFloat.nan) →
      ((addDerived k s l).getD i default).win_cumulative
        = PFloat.num (s + qsum ((l.map LRow.win).take (i + 1)))) := by
  induction l with
  | nil => intro k s i hi; simp at hi
  | cons r t ih =>
    intro k s i hi
    cases i with
    | zero =>
      constructor
      · cases hr : r.win <;> simp [addDerived, hr]
      · intro hnn
        have h0 : r.win ≠ PFloat.nan := by simpa using hnn 0 (le_refl 0)
        cases hr : r.win with
        | nan => exact absurd hr h0
        | num q => simp [addDerived, hr, qsum]
    | succ m =>
      have hm : m < t.length := by simpa using Nat.lt_of_succ_lt_succ (by simpa using hi)
      cases hr : r.win with
      | nan =>
        constructor
        · have := (ih (k + 1) s m hm).1
          simp only [addDerived, hr, List.getD_cons_succ]
          rw [this]; omega
        · intro hnn
          exact absurd (by simpa using hnn 0 (Nat.zero_le _)) (by simp [hr])
      | num q =>
        constructor
        · have := (ih (k + 1) (s + q) m hm).1
          simp only [addDerived, hr, List.getD_cons_succ]
          rw [this]; omega
        · intro hnn
          have hnn' : ∀ j, j ≤ m → (t.getD j default).win ≠ PFloat.nan := fun j hj => by
            simpa using hnn (j + 1) (Nat.succ_le_succ hj)
          have hc := (ih (k + 1) (s + q) m hm).2 hnn'
          simp only [addDerived, hr, List.getD_cons_succ]
          rw [hc]
          simp only [List.map_cons, List.take_succ_cons, hr, qsum]
          congr 1
          ring

/-- C5 counterexample: the claim demands win_cumulative[i] = sum(win[0..i])
at every position of every merged ledger.  A last-hand win produces a NaN
win value; pandas cumsum skips it, so on exC5 (wins 1, NaN, 2 in date
order) the cumulative value at position 2 is 3 while the sum of
win[0..2] is NaN. -/
theorem claim_C5_counterexample :
    ((final_data_preprocessing exC5).getD 2 default).win_cumulative = PFloat.num 3 ∧
    sumP (((sortRows exC5).map LRow.win).take 3) = PFloat.nan ∧
    PFloat.num 3 ≠ PFloat.nan := by
  refine ⟨?_, ?_, by decide⟩ <;> with_unfolding_all decide

/-- C5 amended: after sorting by date, hand_number_total is always the
strict 1-based enumeration, and win_cumulative[i] = sum(win[0..i]) holds
at every position i whose prefix win[0..i] contains no missing value;
past a NaN the cumulative column instead carries the sum with the NaN
entries skipped. -/
theorem claim_C5_amended (rows : List LRow) (i : ℕ)
    (hi : i < (final_data_preprocessing rows).length) :
    ((final_data_preprocessing rows).getD i default).hand_number_total = i + 1 ∧
    ((∀ j, j ≤ i → ((sortRows rows).getD j default).win ≠ PFloat.nan) →
      ((final_data_preprocessing rows).getD i default).win_cumulative
        = sumP (((sortRows rows).map LRow.win).take (i + 1))) := by
  have hi' : i < (sortRows rows).length := by
    rwa [final_data_preprocessing, addDerived_length] at hi
  obtain ⟨h1, h2⟩ := addDerived_spec (sortRows rows) 1 0 i hi'
  constructor
  · rw [final_data_preprocessing, h1, Nat.add_comm]
  · intro hnn
    have hmem : ∀ p ∈ ((sortRows rows).map LRow.win).take (i + 1), p ≠ PFloat.nan := by
      intro p hp
      obtain ⟨j, hjn, hjl, hj⟩ := mem_take_getD _ _ _ hp
      have hjl' : j < (sortRows rows).length := by simpa using hjl
      have : ((sortRows rows).map LRow.win).getD j default
          = ((sortRows rows).getD j default).win := by
        rw [List.getD_eq_getElem _ default hjl, List.getD_eq_getElem _ default hjl']
        simp
      rw [← hj, this]
      exact hnn j (Nat.lt_succ_iff.mp hjn)
    rw [final_data_preprocessing, h2 hnn, sumP_eq_qsum _ hmem, zero_add]

/-- C5 witness: two NaN-free rows given out of date order. -/
theorem claim_C5_amended_witness :
    ((final_data_preprocessing exC5w).getD 1 default).hand_number_total = 1 + 1 ∧
    ((final_data_preprocessing exC5w).getD 1 default).win_cumulative
      = sumP (((sortRows exC5w).map LRow.win).take (1 + 1)) := by
  have h := claim_C5_amended exC5w 1 (by with_unfolding_all decide)
  exact ⟨h.1, h.2 (by with_unfolding_all decide)⟩

/-- A blank line is never a start-marker line. -/
theorem isMarkerLine_blank : isMarkerLine blankLine = false := by decide

/-- Invariant proof for the segmenter scan.  At index i with candidate
start and already emitted acc: the candidate is a marker position below i,
it dominates every inspected marker position below i, every emitted range
is a marker-to-blank-run range ending below i, and the emitted ranges are
ordered and disjoint.  Under WF the scan only extends acc with ranges that
start past every earlier end. -/
theorem segLoop_inv (ls : List String) (hwf : WF ls) :
    ∀ (fuel i : ℕ) (start : Option ℕ) (acc res : List (ℕ × ℕ)),
      ls.length ≤ i + fuel →
      (∀ s, start = some s → s < i ∧ isMarkerLine (ls.getD s "") = true) →
      (∀ m, m < i → m + 2 < ls.length → isMarkerLine (ls.getD m "") = true →
        ∃ s, start = some s ∧ m ≤ s) →
      (∀ p ∈ acc, p.1 < p.2 ∧ isMarkerLine (ls.getD p.1 "") = true ∧ EndPos ls p.2 ∧ p.2 < i) →
      acc.Pairwise (fun a b => a.2 < b.1) →
      segLoop ls fuel i start acc = some res →
      res.Pairwise (fun a b => a.2 < b.1) ∧
        ∀ p ∈ res, p.1 < p.2 ∧ isMarkerLine (ls.getD p.1 "") = true ∧ EndPos ls p.2 := by
  intro fuel
  induction fuel with
  | zero =>
    intro i start acc res hlen h1 h2 h3 h5 hseg
    simp only [segLoop] at hseg
    cases hseg
    exact ⟨h5, fun p hp => ⟨(h3 p hp).1, (h3 p hp).2.1, (h3 p hp).2.2.1⟩⟩
  | succ fuel ih =>
    intro i start acc res hlen h1 h2 h3 h5 hseg
    rw [segLoop] at hseg
    by_cases hil : i < ls.length
    · rw [if_pos hil] at hseg
      by_cases hskip : ls.length - 2 ≤ i
      · rw [if_pos hskip] at hseg
        refine ih (i + 1) start acc res (by omega) ?_ ?_ ?_ h5 hseg
        · intro s hs
          obtain ⟨ha, hb⟩ := h1 s hs
          exact ⟨by omega, hb⟩
        · intro m hm hm2 hmm
          rcases Nat.lt_succ_iff_lt_or_eq.mp hm with hmi | rfl
          · exact h2 m hmi hm2 hmm
          · omega
        · intro p hp
          obtain ⟨a, b, c, d⟩ := h3 p hp
          exact ⟨a, b, c, by omega⟩
      · rw [if_neg hskip] at hseg
        have hi2 : i + 2 < ls.length := by omega
        by_cases hend : EndPos ls i
        · rw [if_pos hend] at hseg
          have hmark : isMarkerLine (ls.getD i "") = false := by
            rw [hend.2.1]; exact isMarkerLine_blank
          rw [hmark] at hseg
          simp only [Bool.false_eq_true, if_false] at hseg
          cases hst : start with
          | none => rw [hst] at hseg; cases hseg
          | some s =>
            rw [hst] at hseg
            obtain ⟨hs_lt, hs_mark⟩ := h1 s hst
            have hcross : ∀ a ∈ acc, a.2 < s := by
              intro a ha
              obtain ⟨ha12, hamark, haend, hai⟩ := h3 a ha
              have he1r : a.2 ∈ List.range ls.length := List.mem_range.mpr (by
                have := haend.1; omega)
              have he2r : i ∈ List.range ls.length := List.mem_range.mpr hil
              obtain ⟨m, hmr, hm1, hm2, hmmark⟩ := hwf a.2 he1r i he2r haend hend hai
              obtain ⟨s2, hs2, hms2⟩ := h2 m (by omega) (by omega) hmmark
              rw [hst] at hs2
              injection hs2 with hse
              omega
            refine ih (i + 1) (some s) (acc ++ [(s, i)]) res (by omega) ?_ ?_ ?_ ?_ hseg
            · intro s0 hs0
              injection hs0 with hse
              subst hse
              exact ⟨by omega, hs_mark⟩
            · intro m hm hm2 hmm
              rcases Nat.lt_succ_iff_lt_or_eq.mp hm with hmi | rfl
              · obtain ⟨s2, hs2, hms2⟩ := h2 m hmi hm2 hmm
                rw [hst] at hs2
                injection hs2 with hse
                exact ⟨s, rfl, by omega⟩
              · rw [hmark] at hmm; cases hmm
            · intro p hp
              rcases List.mem_append.mp hp with hpa | hpb
              · obtain ⟨a, b, c, d⟩ := h3 p hpa
                exact ⟨a, b, c, by omega⟩
              · have hps : p = (s, i) := by simpa using hpb
                subst hps
                exact ⟨hs_lt, hs_mark, hend, by omega⟩
            · rw [List.pairwise_append]
              refine ⟨h5, by simp, ?_⟩
              intro a ha b hb
              have hbs : b = (s, i) := by simpa using hb
              subst hbs
              exact hcross a ha
        · rw [if_neg hend] at hseg
          refine ih (i + 1) (if isMarkerLine (ls.getD i "") then some i else start)
            acc res (by omega) ?_ ?_ ?_ h5 hseg
          · intro s hs
            cases hmi : isMarkerLine (ls.getD i "") with
            | true =>
              rw [hmi, if_pos rfl] at hs
              injection hs with hse
              subst hse
              exact ⟨by omega, hmi⟩
            | false =>
              rw [hmi] at hs
              simp only [Bool.false_eq_true, if_false] at hs
              obtain ⟨ha, hb⟩ := h1 s hs
              exact ⟨by omega, hb⟩
          · intro m hm hm2 hmm
            rcases Nat.lt_succ_iff_lt_or_eq.mp hm with hmi | rfl
            · obtain ⟨s2, hs2, hms2⟩ := h2 m hmi hm2 hmm
              cases hmk : isMarkerLine (ls.getD i "") with
              | true => exact ⟨i, by simp [hmk], by omega⟩
              | false =>
                refine ⟨s2, ?_, hms2⟩
                simp only [hmk, Bool.false_eq_true, if_false]
                exact hs2
            · exact ⟨m, by rw [hmm]; simp, le_refl m⟩
          · intro p hp
            obtain ⟨a, b, c, d⟩ := h3 p hp
            exact ⟨a, b, c, by omega⟩
    · rw [if_neg hil] at hseg
      cases hseg
      exact ⟨h5, fun p hp => ⟨(h3 p hp).1, (h3 p hp).2.1, (h3 p hp).2.2.1⟩⟩

/-- C6 counterexample: the claim says the emitted HandBlocks never
overlap and each runs from its start marker up to (excluding) its
triple-blank run.  On exC6 — one marker followed by four blank lines —
positions 2 and 3 both open a triple-blank run, so the scan emits the
ranges (0,2) and (0,3): they share their start line (they overlap), and
the second block even contains the first blank line of the run. -/
theorem claim_C6_counterexample :
    segRanges exC6 = some [(0, 2), (0, 3)] ∧
    ¬ List.Pairwise (fun a b => a.2 < b.1) [((0 : ℕ), (2 : ℕ)), (0, 3)] ∧
    convert_raw_hand_history exC6
      = some [["#Game No : 1", "a"], ["#Game No : 1", "a", "\n"]] := by
  refine ⟨by decide, by decide, by decide⟩

/-- C6 amended: for a raw log in which any two distinct triple-blank
positions are separated by a start-marker line (in particular, blank runs
of exactly three lines), the emitted ranges are pairwise disjoint and in
table order (every range ends strictly before the next one starts), each
range starts at a marker line and ends at the opening position of a
triple-blank run it does not include, and the HandBlocks are exactly the
corresponding line slices. -/
theorem claim_C6_amended (ls : List String) (res : List (ℕ × ℕ)) (hwf : WF ls)
    (hres : segRanges ls = some res) :
    res.Pairwise (fun a b => a.2 < b.1) ∧
    (∀ p ∈ res, p.1 < p.2 ∧ isMarkerLine (ls.getD p.1 "") = true ∧ EndPos ls p.2) ∧
    convert_raw_hand_history ls = some (res.map fun p => pySlice ls p.1 p.2) := by
  have h := segLoop_inv ls hwf ls.length 0 none [] res (by omega)
    (fun s hs => by cases hs) (fun m hm _ _ => absurd hm (Nat.not_lt_zero m))
    (fun p hp => absurd hp (List.not_mem_nil p)) List.Pairwise.nil hres
  exact ⟨h.1, h.2, by rw [convert_raw_hand_history, hres]; rfl⟩

/-- C6 witness: a log of two hands separated by exactly three blank
lines. -/
theorem claim_C6_amended_witness :
    List.Pairwise (fun a b => a.2 < b.1) [((0 : ℕ), (2 : ℕ)), (5, 7)] ∧
    (∀ p ∈ [((0 : ℕ), (2 : ℕ)), (5, 7)],
      p.1 < p.2 ∧ isMarkerLine (exC6w.getD p.1 "") = true ∧ EndPos exC6w p.2) ∧
    convert_raw_hand_history exC6w
      = some ([((0 : ℕ), (2 : ℕ)), (5, 7)].map fun p => pySlice exC6w p.1 p.2) :=
  claim_C6_amended exC6w [(0, 2), (5, 7)] (by decide) (by decide)

/-- The head of a non-empty dropWhile result fails the predicate. -/
theorem dropWhile_head_false {α : Type} (p : α → Bool) :
    ∀ (l : List α) (c : α) (r : List α), l.dropWhile p = c :: r → p c = false := by
  intro l
  induction l with
  | nil => intro c r h; cases h
  | cons a t ih =>
    intro c r h
    by_cases hpa : p a = true
    · rw [List.dropWhile_cons_of_pos hpa] at h
      exact ih c r h
    · rw [List.dropWhile_cons_of_neg hpa] at h
      injection h with h1 _
      rw [← h1]
      simpa using hpa

/-- Python float() succeeds on every plain decimal numeral and returns its
decimal reading. -/
theorem pyFloat_decimal (l : List Char) (h : DecimalShape l) :
    pyFloat l = some (decValue l) := by
  obtain ⟨hall, hcount, hany⟩ := h
  have hsplit : l.takeWhile Char.isDigit ++ l.dropWhile Char.isDigit = l :=
    List.takeWhile_append_dropWhile Char.isDigit l
  cases hrc : l.dropWhile Char.isDigit with
  | nil =>
    have hlip : l.takeWhile Char.isDigit = l := by
      conv_rhs => rw [← hsplit]
      rw [hrc, List.append_nil]
    have hlne : l ≠ [] := by
      obtain ⟨c, hcl, _⟩ := hany
      exact List.ne_nil_of_mem hcl
    have hne : ¬ (l.takeWhile Char.isDigit).isEmpty = true := by
      rw [hlip, List.isEmpty_iff]
      exact hlne
    unfold pyFloat decValue
    rw [hrc, if_neg hne]
    show some (digitsVal (l.takeWhile Char.isDigit))
      = some (digitsVal (l.takeWhile Char.isDigit) + 0)
    rw [add_zero]
  | cons c fr =>
    have hcd : c.isDigit = false := dropWhile_head_false Char.isDigit l c fr hrc
    have hcl : c ∈ l := by
      rw [← hsplit, hrc]
      exact List.mem_append_right _ (List.mem_cons_self c fr)
    have hcdot : c = '.' := by
      rcases hall c hcl with hd | hd
      · rw [hd] at hcd; cases hcd
      · exact hd
    subst hcdot
    have hip0 : (l.takeWhile Char.isDigit).count '.' = 0 := by
      rw [List.count_eq_zero]
      intro hmem
      have := List.mem_takeWhile_imp hmem
      simp [Char.isDigit] at this
    have hfr0 : fr.count '.' = 0 := by
      have hl : l.count '.' = (l.takeWhile Char.isDigit).count '.'
          + ('.' :: fr).count '.' := by
        rw [← List.count_append, ← hrc, hsplit]
      rw [hip0, List.count_cons_self] at hl
      omega
    have hfrd : fr.all Char.isDigit = true := by
      rw [List.all_eq_true]
      intro x hx
      have hxl : x ∈ l := by
        rw [← hsplit, hrc]
        exact List.mem_append_right _ (List.mem_cons_of_mem _ hx)
      rcases hall x hxl with hd | hd
      · exact hd
      · exfalso
        rw [hd] at hx
        exact List.count_eq_zero.mp hfr0 hx
    have hne : ¬ ((l.takeWhile Char.isDigit).isEmpty = true ∧ fr.isEmpty = true) := by
      rintro ⟨he1, he2⟩
      obtain ⟨c, hcl2, hcd2⟩ := hany
      rw [← hsplit, hrc] at hcl2
      rw [List.isEmpty_iff] at he1 he2
      rw [he1, he2] at hcl2
      simp at hcl2
      rw [hcl2] at hcd2
      simp [Char.isDigit] at hcd2
    have hb : ((l.takeWhile Char.isDigit).isEmpty && fr.isEmpty) = false := by
      rcases Bool.eq_false_or_eq_true ((l.takeWhile Char.isDigit).isEmpty && fr.isEmpty)
        with hb | hb
      · exact absurd (Bool.and_eq_true _ _ |>.mp hb) hne
      · exact hb
    unfold pyFloat decValue
    rw [hrc]
    show (if ('.' : Char) = '.' then
        (if (fr.all Char.isDigit && !((l.takeWhile Char.isDigit).isEmpty && fr.isEmpty)) = true
          then some (digitsVal (l.takeWhile Char.isDigit) + digitsVal fr / 10 ^ fr.length)
          else none)
        else none)
      = some (digitsVal (l.takeWhile Char.isDigit) + digitsVal fr / 10 ^ fr.length)
    rw [hfrd, hb]
    simp

/-- C2 counterexample: the claim says thousands separators are ignored,
so "Seat 1: p ( $1,000 )" should give 1000.0.  The line does contain a
currency-marked token, but the code only deletes dollar signs before
calling float(), the comma stays, and float("1,000") raises ValueError. -/
theorem claim_C2_counterexample :
    ((findallCurrency "Seat 1: p ( $1,000 )").getLast?).isSome = true ∧
    extract_currency_amount "Seat 1: p ( $1,000 )" = Except.error Err.valueError := by
  exact ⟨by decide, by with_unfolding_all decide⟩

/-- C2 amended: for every line, when the last currency-marked match is a
dollar token whose stripped numeral is a plain decimal (digits, at most
one point, no thousands separators, not pound/euro), the extractor
returns that numeral's decimal value; tokens with a comma or with the
pound/euro markers instead make float() raise. -/
theorem claim_C2_amended (s : String) (m : List Char)
    (hm : (findallCurrency s).getLast? = some m) (hsh : TokenShape m) :
    extract_currency_amount s = Except.ok (tokenValue m) := by
  obtain ⟨c, rest, rfl⟩ : ∃ c rest, m = c :: rest := by
    cases m with
    | nil => exact hsh.elim
    | cons c rest => exact ⟨c, rest, rfl⟩
  obtain ⟨hc, hnod, hdec⟩ := hsh
  subst hc
  unfold extract_currency_amount
  rw [hm]
  have hfil : ('$' :: rest).filter (fun c => c ≠ '$') = rest := by
    rw [List.filter_cons]
    have h1 : (fun c => decide (c ≠ '$')) '$' = false := by decide
    rw [if_neg (by simp)]
    exact List.filter_eq_self.mpr (fun x hx => by simpa using hnod x hx)
  show (match pyFloat (trimChars (('$' :: rest).filter (fun c => c ≠ '$'))) with
      | some q => Except.ok q
      | none => Except.error Err.valueError) = Except.ok (tokenValue ('$' :: rest))
  rw [hfil, pyFloat_decimal _ hdec]
  rfl

/-- C2 witness: the spec's own two-token example line. -/
theorem claim_C2_amended_witness :
    (findallCurrency "hero bets $0.50, hero has $1.50 left").getLast?
      = some ['$', '1', '.', '5', '0'] ∧
    extract_currency_amount "hero bets $0.50, hero has $1.50 left"
      = Except.ok (tokenValue ['$', '1', '.', '5', '0']) ∧
    tokenValue ['$', '1', '.', '5', '0'] = 3 / 2 := by
  refine ⟨by decide, claim_C2_amended _ _ (by decide) (by decide), ?_⟩
  with_unfolding_all decide
